import Mathlib

/-!
Verification development for the HPS interpreter (`hsp.py`).

The interpreter is shallowly embedded: every statement handler of
`HPSInterpreter` becomes a Lean function over an explicit state record.
Python floats are idealised as exact rationals (`ℚ`); the one global
pseudo-random generator is threaded through the state as two explicit
streams (uniform samples for `random.random()`, indices for
`random.choice`), so that an execution of the Python program corresponds
to a run of the model on some stream.  Python regular expressions are
modelled by direct character-list scanners that reproduce the
backtracking behaviour of the concrete patterns used in the source.
-/

namespace HPS

/-- Python `\w` word character.  Python's `re` matches Unicode word
characters; the approximation here covers ASCII alphanumerics,
underscore and the CJK-ideograph block used by the language's Chinese
identifiers.  The marker characters `¢ ¥ × ÷` are not word characters,
matching Python. -/
def isWordChar (c : Char) : Bool :=
  c.isAlphanum || c == '_' || (0x4E00 ≤ c.toNat && c.toNat ≤ 0x9FFF)

/-- Python whitespace for `str.strip` / `\s` (ASCII approximation). -/
def isPySpace (c : Char) : Bool :=
  c.isWhitespace || c == '\x0b' || c == '\x0c'

/-- Character of `[\d.]`, the character class of the percent-literal
patterns `\(([\d.]+)/` and `([\d.]+)/`. -/
def isProbChar (c : Char) : Bool := c.isDigit || c == '.'

/-- Model of `str.strip()` on a character list. -/
def pyStripL (l : List Char) : List Char :=
  ((l.dropWhile isPySpace).reverse.dropWhile isPySpace).reverse

/-- Model of `str.strip()`. -/
def pyStrip (s : String) : String := String.mk (pyStripL s.toList)

/-- Prefix test used for all `str.startswith` checks. -/
def strStartsWith (s p : String) : Bool := p.toList.isPrefixOf s.toList

/-- Model of `line.endswith(c)` for a single character. -/
def lastIs (l : List Char) (c : Char) : Bool := l.getLast? == some c

/-- Helper for the substring test: does `needle` occur at some suffix? -/
def occursIn (needle : List Char) : List Char → Bool
  | [] => needle.isEmpty
  | c :: rest => needle.isPrefixOf (c :: rest) || occursIn needle rest

/-- Python `needle in hay` substring test. -/
def pyContains (hay : List Char) (needle : String) : Bool :=
  occursIn needle.toList hay

theorem length_dropWhile_le (p : Char → Bool) (l : List Char) :
    (l.dropWhile p).length ≤ l.length := by
  induction l with
  | nil => simp [List.dropWhile]
  | cons c rest ih =>
      by_cases h : p c
      · simp [List.dropWhile, h]
        omega
      · simp [List.dropWhile, h]

/-- Value of a digit list, most significant first (`int` of a `\d+` group). -/
def digitsToNat (l : List Char) : ℕ :=
  l.foldl (fun acc c => 10 * acc + (c.toNat - 48)) 0

/-- Model of `re.findall(r'\$(\w+)', line)`: every `$`-token, left to right,
duplicates kept.  After a token, scanning resumes structurally at `rest`
rather than after the token: the skipped characters are word characters,
never `$`, so no extra match can arise. -/
def findItems : List Char → List String
  | [] => []
  | '$' :: rest =>
      let run := rest.takeWhile isWordChar
      if run.isEmpty then findItems rest else String.mk run :: findItems rest
  | _ :: rest => findItems rest

/-- Model of `re.search(r'\$(\w+)', line)`: first `$`-token. -/
def findDollar : List Char → Option String
  | [] => none
  | '$' :: rest =>
      let run := rest.takeWhile isWordChar
      if run.isEmpty then findDollar rest else some (String.mk run)
  | _ :: rest => findDollar rest

/-- Model of `re.search(r'#(\w+)', line)`: first `#`-token. -/
def findHash : List Char → Option String
  | [] => none
  | '#' :: rest =>
      let run := rest.takeWhile isWordChar
      if run.isEmpty then findHash rest else some (String.mk run)
  | _ :: rest => findHash rest

/-- Model of `re.search(r'\*(\d+)', line)`: the pity-cap token. -/
def findStar : List Char → Option ℕ
  | [] => none
  | '*' :: rest =>
      let run := rest.takeWhile Char.isDigit
      if run.isEmpty then findStar rest else some (digitsToNat run)
  | _ :: rest => findStar rest

/-- Model of `re.search(r'×:(\d+)', line)`: the repeat-count token. -/
def findTimes : List Char → Option ℕ
  | [] => none
  | '×' :: rest =>
      (match rest with
       | ':' :: rest' =>
           let run := rest'.takeWhile Char.isDigit
           if run.isEmpty then findTimes rest else some (digitsToNat run)
       | _ => findTimes rest)
  | _ :: rest => findTimes rest

/-- Model of `re.search(r'\(([\d.]+)/', line)`: a `(`, then a maximal nonempty
`[\d.]` run, then `/`.  Scanning position by position reproduces
`re.search`; inside a failed run every suffix also fails, so skipping a
single character at a time is faithful. -/
def findParenProb : List Char → Option String
  | [] => none
  | '(' :: rest =>
      let run := rest.takeWhile isProbChar
      let rest' := rest.dropWhile isProbChar
      if run.isEmpty then findParenProb rest
      else
        match rest' with
        | '/' :: _ => some (String.mk run)
        | _ => findParenProb rest
  | _ :: rest => findParenProb rest

/-- Model of `re.search(r'([\d.]+)/', value_str)` from `_assign_variable`:
first position whose maximal `[\d.]` run is followed by `/`. -/
def findProbTok : List Char → Option String
  | [] => none
  | c :: rest =>
      if isProbChar c then
        match rest.dropWhile isProbChar with
        | '/' :: _ => some (String.mk (c :: rest.takeWhile isProbChar))
        | _ => findProbTok rest
      else findProbTok rest

/-- Model of `re.match(r'(\w+)\(([^)]*)\)', line)`: identifier, `(`, everything up
to the first `)`.  Returns the two groups. -/
def callMatch (l : List Char) : Option (String × String) :=
  let run := l.takeWhile isWordChar
  if run.isEmpty then none
  else
    match l.dropWhile isWordChar with
    | '(' :: tail =>
        let args := tail.takeWhile (fun c => !(c == ')'))
        match tail.dropWhile (fun c => !(c == ')')) with
        | ')' :: _ => some (String.mk run, String.mk args)
        | _ => none
    | _ => none

/-- Model of `re.match(r'^(?!¢\.)\w+\([^)]*\)$', line)` as a Bool: a full-line
function-call shape.  `¢` is not a word character, so the negative
lookahead is subsumed by the `\w+` requirement. -/
def isCallLine (l : List Char) : Bool :=
  let run := l.takeWhile isWordChar
  !run.isEmpty &&
    (match l.dropWhile isWordChar with
     | '(' :: tail =>
         (tail.dropWhile (fun c => !(c == ')'))) == [')']
     | _ => false)

/-- Model of `re.match(r'¢\.(\w+)\(([^)]*)\)', line)` from `_start_function_def`. -/
def funcDefMatch (l : List Char) : Option (String × String) :=
  match l with
  | '¢' :: '.' :: rest => callMatch rest
  | _ => none

/-- Model of `re.match(r'#(\w+)\s*=\s*(.+)', line)` from `_assign_variable`.
The `(.+)` group: after the greedy `\s*`, at least one character must
remain; if the tail is whitespace only, the engine backtracks and the
group is the final whitespace character. -/
def assignMatch (l : List Char) : Option (String × String) :=
  match l with
  | '#' :: rest =>
      let run := rest.takeWhile isWordChar
      if run.isEmpty then none
      else
        match (rest.dropWhile isWordChar).dropWhile isPySpace with
        | '=' :: tail =>
            let v := tail.dropWhile isPySpace
            if v.isEmpty then
              match tail.reverse with
              | [] => none
              | c :: _ => some (String.mk run, String.mk [c])
            else some (String.mk run, String.mk v)
        | _ => none
  | _ => none

/-- Model of `re.match(r'return\s*(.+)', line)` (the line already starts with
`return` when this is consulted). -/
def returnMatch (l : List Char) : Option String :=
  match l with
  | 'r' :: 'e' :: 't' :: 'u' :: 'r' :: 'n' :: rest =>
      let v := rest.dropWhile isPySpace
      if v.isEmpty then
        match rest.reverse with
        | [] => none
        | c :: _ => some (String.mk [c])
      else some (String.mk v)
  | _ => none

/-- Group of `re.search(r'&A\((.+)\)', line)` at one candidate position:
the greedy `.+` reaches to the last `)`, and must be nonempty. -/
def lastGroup (body : List Char) : Option (List Char) :=
  match body.reverse.dropWhile (fun c => !(c == ')')) with
  | ')' :: gRev => if gRev.isEmpty then none else some gRev.reverse
  | _ => none

/-- Model of `re.search(r'&A\((.+)\)', line)`. -/
def findMath : List Char → Option String
  | [] => none
  | '&' :: rest =>
      (match rest with
       | 'A' :: '(' :: body =>
           (match lastGroup body with
            | some g => some (String.mk g)
            | none => findMath rest)
       | _ => findMath rest)
  | _ :: rest => findMath rest

/-- Model of `str.split(sep)` for a single-character separator (Python keeps
empty pieces; `"".split(sep) == [""]`). -/
def pySplit (sep : Char) (l : List Char) : List (List Char) :=
  l.splitOn sep

/-- Worker for `str.replace`: structurally recursive on a step budget
that starts at the haystack length; each step consumes at least one
character, so the budget is never exhausted on the wrapper's inputs. -/
def pyReplaceGo (old new : List Char) : ℕ → List Char → List Char
  | _, [] => []
  | 0, l => l
  | fuel + 1, c :: rest =>
      if old.isPrefixOf (c :: rest) then
        new ++ pyReplaceGo old new fuel (rest.drop (old.length - 1))
      else c :: pyReplaceGo old new fuel rest

/-- Model of `str.replace(old, new)` for the nonempty `old` patterns the
interpreter uses: left-to-right, non-overlapping. -/
def pyReplaceL (old new hay : List Char) : List Char :=
  if old.isEmpty then hay else pyReplaceGo old new hay.length hay

/-- Decimal digits of a rational in `[0,1)`, up to 17 places (idealised
`repr` of a Python float; every number produced by the interpreter's
claims terminates well within this bound). -/
def fracDigits : ℕ → ℚ → List Char
  | 0, _ => []
  | n + 1, q =>
      if q = 0 then []
      else
        let d : ℤ := (q * 10).floor
        Char.ofNat (48 + d.toNat) :: fracDigits n (q * 10 - d)

/-- Model of `str(x)` for a Python float, idealised over `ℚ`: integral values
render with a trailing `.0`, others with their decimal expansion. -/
def formatPyFloat (q : ℚ) : String :=
  let sign := if q < 0 then "-" else ""
  let a := |q|
  let ip : ℤ := a.floor
  let ds := fracDigits 17 (a - ip)
  sign ++ toString ip ++ "." ++ (if ds.isEmpty then "0" else String.mk ds)

/-- Model of `str(total_spent)`: `total_spent` starts as the int `0` and only ever
has int draw costs added, so Python prints it as an integer. -/
def formatSpent (q : ℚ) : String :=
  if q.den = 1 then toString q.num else formatPyFloat q

/-- Model of `float()` on a `[\d.]+` group: succeeds when there is at least one
digit and at most one dot. -/
def pyFloat (s : String) : Option ℚ :=
  let cs := s.toList
  if cs.all isProbChar && cs.any Char.isDigit && cs.count '.' ≤ 1 then
    let ipart := cs.takeWhile (fun c => !(c == '.'))
    let fpart := (cs.dropWhile (fun c => !(c == '.'))).drop 1
    some ((digitsToNat ipart : ℚ) + (digitsToNat fpart : ℚ) / (10 : ℚ) ^ fpart.length)
  else none

/-- The `ValueError` message of a failed `float()` conversion. -/
def floatErrMsg (s : String) : String :=
  "could not convert string to float: \x27" ++ s ++ "\x27"

/-- General `float(str)`: optional surrounding whitespace and sign, a
mantissa with at least one digit, optional decimal exponent.  (`inf` and
`nan` are outside the rational idealisation and rejected.) -/
def pyFloatFull (s : String) : Option ℚ :=
  let cs := pyStripL s.toList
  let (neg, cs) :=
    match cs with
    | '-' :: rest => (true, rest)
    | '+' :: rest => (false, rest)
    | rest => (false, rest)
  let mant := cs.takeWhile isProbChar
  let rest := cs.dropWhile isProbChar
  let expOk : Option ℤ :=
    match rest with
    | [] => some 0
    | 'e' :: er | 'E' :: er =>
        let (eneg, ed) :=
          match er with
          | '-' :: d => (true, d)
          | '+' :: d => (false, d)
          | d => (false, d)
        if !ed.isEmpty && ed.all Char.isDigit then
          some (if eneg then -(digitsToNat ed : ℤ) else (digitsToNat ed : ℤ))
        else none
    | _ => none
  match expOk, pyFloat (String.mk mant) with
  | some e, some m =>
      let v := m * (10 : ℚ) ^ e
      some (if neg then -v else v)
  | _, _ => none

/-- Python `repr` of a list of strings (singly quoted items). -/
def pyStrList (l : List String) : String :=
  "[" ++ String.intercalate ", " (l.map (fun x => "\x27" ++ x ++ "\x27")) ++ "]"

/-- A value held in the plain-variable namespace: a Python float or a
fallback string. -/
inductive PyVal where
  | num (q : ℚ)
  | str (s : String)
deriving DecidableEq, Repr

/-- A named item pool (`Pool` dataclass). -/
structure Pool where
  name : String
  total_prob : ℚ
  items : List String
deriving DecidableEq, Repr

/-- A user-defined function (`Function` dataclass). -/
structure Function where
  name : String
  params : List String
  body : List String
deriving DecidableEq, Repr

/-- Python-dict lookup on an insertion-ordered association list. -/
def alookup {α : Type} : List (String × α) → String → Option α
  | [], _ => none
  | (k, v) :: rest, key => if k = key then some v else alookup rest key

/-- Python-dict store: update in place, else append. -/
def ainsert {α : Type} : List (String × α) → String → α → List (String × α)
  | [], key, v => [(key, v)]
  | (k, w) :: rest, key, v =>
      if k = key then (key, v) :: rest else (k, w) :: ainsert rest key v

/-- The full mutable state of `HPSInterpreter`, plus the two explicit
random streams standing for the process-wide generator (`randStream`
feeds `random.random()`, `choiceStream` feeds `random.choice`). -/
structure St where
  /-- Model of `self.variables` (the name `variables` is reserved in Lean). -/
  vars : List (String × PyVal)
  pools : List (String × Pool)
  currency : List (String × ℚ)
  inventory : List String
  pity_counter : ℕ
  total_spent : ℚ
  functions : List (String × Function)
  outBuf : List String
  in_function : Bool
  current_function_lines : List String
  current_function_name : String
  current_function_params : List String
  randStream : List ℚ
  choiceStream : List ℕ
deriving DecidableEq, Repr

/-- The `__init__` state (empty streams). -/
def initSt : St :=
  ⟨[], [], [], [], 0, 0, [], [], false, [], "", [], [], []⟩

/-- Model of `reset()` re-runs `__init__`; the random generator is process-wide
and survives. -/
def resetSt (s : St) : St :=
  { initSt with randStream := s.randStream, choiceStream := s.choiceStream }

/-- Append one line to `self.output_lines`. -/
def pushOut (s : St) (line : String) : St :=
  { s with outBuf := s.outBuf ++ [line] }

/-- Result of one statement handler: normal return, or a raised
exception (carrying the state as mutated up to the raise). -/
inductive HRes where
  | ok (s : St)
  | err (s : St) (msg : String)
deriving Repr

/-- State component of a handler result. -/
def HRes.state : HRes → St
  | .ok s => s
  | .err s _ => s

/-- Model of `random.random()`: pop the next uniform sample (an exhausted model
stream yields `1`, which never satisfies `r < p` for probabilities
clamped to `1`). -/
def nextRand (s : St) : ℚ × St :=
  match s.randStream with
  | [] => (1, s)
  | r :: rest => (r, { s with randStream := rest })

/-- Model of `random.choice(items)`: raises `IndexError` on an empty sequence,
otherwise picks the item indexed by the next choice-stream entry. -/
def pyChoice (s : St) (items : List String) :
    (String × St) ⊕ String :=
  match items with
  | [] => Sum.inr "Cannot choose from an empty sequence"
  | x :: xs =>
      let (i, s') :=
        match s.choiceStream with
        | [] => (0, s)
        | i :: rest => (i, { s with choiceStream := rest })
      Sum.inl ((x :: xs).get ⟨i % (x :: xs).length, Nat.mod_lt _ (Nat.succ_pos xs.length)⟩, s')

/-- Model of `_define_pool`. -/
def definePool (s : St) (l : List Char) : HRes :=
  match findParenProb l with
  | none => .err s "池子: (0.6/:$雷电)#UP"
  | some tok =>
      match pyFloat tok with
      | none => .err s (floatErrMsg tok)
      | some q =>
          let total_prob := q / 100
          let items := findItems l
          if items.isEmpty then .err s "池子需要物品"
          else
            match findHash l with
            | none => .err s "池子需要命名"
            | some poolName =>
                let s := { s with pools := ainsert s.pools poolName ⟨poolName, total_prob, items⟩ }
                let itemsStr := String.intercalate "," (items.map (fun i => "$" ++ i))
                .ok (pushOut s ("[池] #" ++ poolName ++ " | " ++
                  formatPyFloat (total_prob * 100) ++ "% | " ++ itemsStr))

/-- Model of `_assign_variable`. -/
def assignVariable (s : St) (l : List Char) : HRes :=
  match assignMatch l with
  | none => .err s "赋值: #变量 = 值"
  | some (name, g2) =>
      let v := pyStrip g2
      let confirm := "[变] #" ++ name ++ " = " ++ v
      if strStartsWith v "¥" then
        match pyFloatFull (String.mk (v.toList.drop 1)) with
        | none => .err s (floatErrMsg (String.mk (v.toList.drop 1)))
        | some q => .ok (pushOut { s with currency := ainsert s.currency name q } confirm)
      else if lastIs v.toList '/' then
        match findProbTok v.toList with
        | some tok =>
            (match pyFloat tok with
             | none => .err s (floatErrMsg tok)
             | some q =>
                 .ok (pushOut { s with vars := ainsert s.vars name (.num (q / 100)) } confirm))
        | none => .ok (pushOut s confirm)
      else
        match pyFloatFull v with
        | some q => .ok (pushOut { s with vars := ainsert s.vars name (.num q) } confirm)
        | none => .ok (pushOut { s with vars := ainsert s.vars name (.str v) } confirm)

/-- The effective per-draw probability of `_execute_target`: soft-pity
inflation past 70 consecutive attempts (`0.02` idealised as `2/100`). -/
def currentProb (base : ℚ) (pity : ℕ) : ℚ :=
  if pity > 70 then min 1 (base + ((pity - 70 : ℕ) : ℚ) * (2 / 100)) else base

/-- Outcome of the draw loop, one constructor per control path of the
`for`/`else` in `_execute_target`: `hit` is the early `return` on the
target (recording the draw index), `broke` the `break` after a
non-target drop, `exhausted` the `else` branch after all `cap`
iterations, `failed` a raised exception (empty pool). -/
inductive DrawRes where
  | hit (k : ℕ) (s : St)
  | broke (s : St)
  | exhausted (s : St)
  | failed (s : St) (msg : String)
deriving DecidableEq, Repr

/-- The draw loop `for draw in range(1, max_pity + 1)` of
`_execute_target`; `rem` counts the remaining iterations
(initially `max_pity`, with `draw` starting at 1). -/
def drawLoop (target : String) (pool : Pool) (maxPity : ℕ) :
    ℕ → ℕ → St → DrawRes
  | _, 0, s =>
      let cost := maxPity * 160
      let s := { s with inventory := s.inventory ++ [target] }
      let s := { s with total_spent := s.total_spent + (cost : ℚ) }
      let s := pushOut s ("[!] 保底 | $" ++ target ++ " | " ++ toString maxPity ++ "抽 ¥" ++ toString cost)
      .exhausted { s with pity_counter := 0 }
  | draw, rem + 1, s =>
      let s := { s with pity_counter := s.pity_counter + 1 }
      let pr := nextRand s
      let r := pr.1
      let s := pr.2
      if r < currentProb pool.total_prob s.pity_counter then
        match pyChoice s pool.items with
        | .inr msg => .failed s msg
        | .inl (drawn, s') =>
            let s := { s' with inventory := s'.inventory ++ [drawn] }
            let s :=
              if draw ≤ 3 || drawn == target || maxPity - 2 ≤ draw then
                pushOut s ("     第" ++ toString draw ++ "抽: $" ++ drawn ++ " " ++
                  (if s.pity_counter > 70 then "[" ++ toString s.pity_counter ++ "]" else ""))
              else s
            if drawn == target then
              let cost := draw * 160
              let s := { s with total_spent := s.total_spent + (cost : ℚ) }
              let s := pushOut s ("[✓] 出货! $" ++ target ++ " | " ++ toString draw ++ "抽 ¥" ++ toString cost)
              .hit draw { s with pity_counter := 0 }
            else .broke s
      else drawLoop target pool maxPity (draw + 1) rem s

/-- Model of `_execute_target`. -/
def executeTarget (s : St) (l : List Char) : HRes :=
  match findDollar l with
  | none => .err s "目标: <$雷电,#UP,*90>"
  | some target =>
      match findHash l with
      | none => .err s "池子未定义"
      | some poolName =>
          match alookup s.pools poolName with
          | none => .err s "池子未定义"
          | some pool =>
              let drawTimes := (findTimes l).getD 1
              let maxPity := (findStar l).getD 90
              let s := pushOut s ("[抽] $" ++ target ++ " | #" ++ poolName ++ " | " ++
                toString drawTimes ++ "连 | 保底" ++ toString maxPity)
              match drawLoop target pool maxPity 1 maxPity s with
              | .hit _ s' => .ok s'
              | .broke s' => .ok s'
              | .exhausted s' => .ok s'
              | .failed s' msg => .err s' msg

/-- Rendering of a plain-variable value in `_handle_output.replace_var`:
floats below 1 as a percentage, everything else via `str`. -/
def renderPlain : PyVal → String
  | .num q => if q < 1 then formatPyFloat (q * 100) ++ "%" else formatPyFloat q
  | .str v => v

/-- Model of `replace_var` of `_handle_output`: plain variables first, then
currency, then an explicit undefined placeholder. -/
def replaceVar (s : St) (name : String) : String :=
  match alookup s.vars name with
  | some v => renderPlain v
  | none =>
      match alookup s.currency name with
      | some c => "¥" ++ formatPyFloat c
      | none => "[未定义:#" ++ name ++ "]"

/-- Worker for `re.sub(r'#(\w+)', f, content)`: a one-character-at-a-time
scanner; the first argument is `some acc` (reversed) while inside a
candidate `#`-token, `none` otherwise.  A token ends at the first
non-word character (or the end) and is rendered through `f`; a bare `#`
with no word character after it is copied verbatim. -/
def subHashAux (f : String → String) : Option (List Char) → List Char → List Char
  | none, [] => []
  | some acc, [] => if acc.isEmpty then ['#'] else (f (String.mk acc.reverse)).toList
  | none, c :: rest =>
      if c = '#' then subHashAux f (some []) rest
      else c :: subHashAux f none rest
  | some acc, c :: rest =>
      if isWordChar c then subHashAux f (some (c :: acc)) rest
      else
        (if acc.isEmpty then ['#'] else (f (String.mk acc.reverse)).toList) ++
          (if c = '#' then subHashAux f (some []) rest
           else c :: subHashAux f none rest)

/-- Model of `re.sub(r'#(\w+)', f, content)`: left-to-right, non-overlapping. -/
def subHash (f : String → String) (l : List Char) : List Char :=
  subHashAux f none l

/-- Model of `_handle_output`. -/
def handleOutput (s : St) (l : List Char) : HRes :=
  let content := l.drop 2
  let c1 := subHash (replaceVar s) content
  let c2 := pyReplaceL "\x7binventory\x7d".toList (pyStrList s.inventory).toList c1
  let c3 := pyReplaceL "\x7btotal_spent\x7d".toList ("¥" ++ formatSpent s.total_spent).toList c2
  let c4 := pyReplaceL "\x7bpity\x7d".toList (toString s.pity_counter).toList c3
  .ok (pushOut s ("[出] " ++ String.mk c4))

/-- The comment branch of `_execute_line`. -/
def handleComment (s : St) (l : List Char) : HRes :=
  let comment := pyStripL (l.drop 1)
  if comment.isEmpty then .ok s else .ok (pushOut s ("[注] " ++ String.mk comment))

/-- Model of `_handle_return`. -/
def handleReturn (s : St) (l : List Char) : HRes :=
  match returnMatch l with
  | none => .ok s
  | some v => .ok (pushOut s ("[返] " ++ pyStrip v))

/-- Model of `_start_function_def`. -/
def startFunctionDef (s : St) (l : List Char) : HRes :=
  match funcDefMatch l with
  | none => .err s "函数定义: ¢.函数名(参数)"
  | some (name, paramsStr) =>
      let ps := pyStrip paramsStr
      let params :=
        if ps.isEmpty then []
        else (pySplit ',' ps.toList).map (fun p => pyStrip (String.mk p))
      .ok { s with
              current_function_name := name
              current_function_params := params
              current_function_lines := []
              in_function := true }

/-- Model of `_end_function_def`. -/
def endFunctionDef (s : St) : HRes :=
  let name := s.current_function_name
  let func : Function := ⟨name, s.current_function_params, s.current_function_lines⟩
  let s := { s with functions := ainsert s.functions name func }
  let s := pushOut s ("[函] ¢." ++ name ++ " 定义完成")
  .ok { s with
          in_function := false
          current_function_name := ""
          current_function_params := []
          current_function_lines := [] }

/-- Arithmetic token for the sandboxed `eval` of `_handle_math`. -/
inductive Tok where
  | num (q : ℚ)
  | plus
  | minus
  | star
  | slash
  | lparen
  | rparen
deriving DecidableEq, Repr

/-- Tokeniser for the restricted `eval` (builtins stripped, so only
numeric literals, `+ - * /` and parentheses can evaluate; anything else
raises and lands in the error branch). -/
def tokenizeGo : ℕ → List Char → Option (List Tok)
  | _, [] => some []
  | 0, _ => none
  | fuel + 1, c :: rest =>
      if isPySpace c then tokenizeGo fuel rest
      else if isProbChar c then
        let run := c :: rest.takeWhile isProbChar
        let rest' := rest.dropWhile isProbChar
        match pyFloat (String.mk run), tokenizeGo fuel rest' with
        | some q, some ts => some (.num q :: ts)
        | _, _ => none
      else
        let tk : Option Tok :=
          if c == '+' then some .plus
          else if c == '-' then some .minus
          else if c == '*' then some .star
          else if c == '/' then some .slash
          else if c == '(' then some .lparen
          else if c == ')' then some .rparen
          else none
        match tk, tokenizeGo fuel rest with
        | some t, some ts => some (t :: ts)
        | _, _ => none

def tokenize (l : List Char) : Option (List Tok) :=
  tokenizeGo l.length l

mutual

/-- Additive level of the arithmetic grammar. -/
def parseE : ℕ → List Tok → Option (ℚ × List Tok)
  | 0, _ => none
  | n + 1, ts =>
      match parseT n ts with
      | none => none
      | some (v, rest) => parseEx n v rest

/-- Left-to-right fold of `+`/`-` chains. -/
def parseEx : ℕ → ℚ → List Tok → Option (ℚ × List Tok)
  | 0, _, _ => none
  | n + 1, v, .plus :: rest =>
      (match parseT n rest with
       | some (w, r) => parseEx n (v + w) r
       | none => none)
  | n + 1, v, .minus :: rest =>
      (match parseT n rest with
       | some (w, r) => parseEx n (v - w) r
       | none => none)
  | _ + 1, v, rest => some (v, rest)

/-- Multiplicative level; division by zero is a raised
`ZeroDivisionError`, i.e. failure. -/
def parseT : ℕ → List Tok → Option (ℚ × List Tok)
  | 0, _ => none
  | n + 1, ts =>
      match parseF n ts with
      | none => none
      | some (v, rest) => parseTx n v rest

/-- Left-to-right fold of `*`/`/` chains. -/
def parseTx : ℕ → ℚ → List Tok → Option (ℚ × List Tok)
  | 0, _, _ => none
  | n + 1, v, .star :: rest =>
      (match parseF n rest with
       | some (w, r) => parseTx n (v * w) r
       | none => none)
  | n + 1, v, .slash :: rest =>
      (match parseF n rest with
       | some (w, r) => if w = 0 then none else parseTx n (v / w) r
       | none => none)
  | _ + 1, v, rest => some (v, rest)

/-- Atoms: unary minus, parenthesised expression, numeric literal. -/
def parseF : ℕ → List Tok → Option (ℚ × List Tok)
  | 0, _ => none
  | n + 1, .minus :: rest =>
      (match parseF n rest with
       | some (v, r) => some (-v, r)
       | none => none)
  | n + 1, .lparen :: rest =>
      (match parseE n rest with
       | some (v, .rparen :: r) => some (v, r)
       | _ => none)
  | _ + 1, .num q :: rest => some (q, rest)
  | _ + 1, _ => none

end

/-- The sandboxed `eval(expr, {"__builtins__": {}}, {})` of
`_handle_math`, idealised over `ℚ`. -/
def pyEval (expr : List Char) : Option ℚ :=
  match tokenize expr with
  | none => none
  | some ts =>
      match parseE (ts.length + 1) ts with
      | some (v, []) => some v
      | _ => none

/-- Model of `f"{result:.2f}"`: fixed two-decimal rendering (rounding idealised
to round-half-up on the exact rational). -/
def formatFixed2 (q : ℚ) : String :=
  let n : ℤ := round (q * 100)
  let sign := if n < 0 then "-" else ""
  let m := n.natAbs
  let r := m % 100
  sign ++ toString (m / 100) ++ "." ++ (if r < 10 then "0" else "") ++ toString r

/-- Model of `str(val)` for a plain-variable value (used by the substitution in
`_handle_math`). -/
def pyStrVal : PyVal → String
  | .num q => formatPyFloat q
  | .str v => v

/-- The textual substitution pass of `_handle_math`: every plain and
currency variable replaced by its numeric rendering, then the glyphs
`×`/`÷` mapped to `*`/`/`. -/
def mathSubst (s : St) (expr : String) : List Char :=
  pyReplaceL ['×'] ['*'] (pyReplaceL ['÷'] ['/']
    (s.currency.foldl
      (fun acc kv => pyReplaceL ("#" ++ kv.1).toList (formatPyFloat kv.2).toList acc)
      (s.vars.foldl
        (fun acc kv => pyReplaceL ("#" ++ kv.1).toList (pyStrVal kv.2).toList acc)
        expr.toList)))

/-- Model of `_handle_math`. -/
def handleMath (s : St) (l : List Char) : HRes :=
  match findMath l with
  | none => .ok s
  | some expr =>
      match pyEval (mathSubst s expr) with
      | some r => .ok (pushOut s ("[算] " ++ expr ++ " = " ++ formatFixed2 r))
      | none => .ok (pushOut s ("[算] 错误: " ++ String.mk (mathSubst s expr)))

/-- Python `repr` of a string-keyed dict whose values are pre-rendered. -/
def pyDictStr (entries : List (String × String)) : String :=
  "\x7b" ++ String.intercalate ", "
    (entries.map (fun kv => "\x27" ++ kv.1 ++ "\x27: " ++ kv.2)) ++ "\x7d"

/-- Model of `repr` of a `vars_display` entry in `get_state`: small floats are
shown as a quoted percentage string, other floats bare, strings quoted. -/
def displayVal : PyVal → String
  | .num q =>
      if q < 1 then "\x27" ++ formatPyFloat (q * 100) ++ "%\x27" else formatPyFloat q
  | .str v => "\x27" ++ v ++ "\x27"

/-- Model of `get_state`. -/
def getState (s : St) : String :=
  let bar := String.mk (List.replicate 40 '─')
  let lines :=
    [bar, "📊 状态"]
    ++ (if s.pools.isEmpty then [] else ["  池: " ++ pyStrList (s.pools.map Prod.fst)])
    ++ (if s.functions.isEmpty then [] else ["  函: " ++ pyStrList (s.functions.map Prod.fst)])
    ++ (if s.vars.isEmpty then []
        else ["  变: " ++ pyDictStr (s.vars.map (fun kv => (kv.1, displayVal kv.2)))])
    ++ (if s.currency.isEmpty then []
        else ["  钱: " ++ pyDictStr (s.currency.map (fun kv => (kv.1, formatPyFloat kv.2)))])
    ++ ["  库: " ++ pyStrList s.inventory,
        "  保: " ++ toString s.pity_counter ++ " | 花: ¥" ++ formatSpent s.total_spent,
        bar]
  String.intercalate "\n" lines

/-- The `AttributeError` raised by the `?` branch (`_handle_condition`
is never defined on the class). -/
def condAttrMsg : String :=
  "\x27HPSInterpreter\x27 object has no attribute \x27_handle_condition\x27"

/-- Parameter substitution of `_call_function`: for each parameter with
a positional argument, a literal `str.replace` of `#param`. -/
def substParams (params args : List String) (l : List Char) : List Char :=
  (params.enum).foldl
    (fun acc ip =>
      if ip.1 < args.length then
        pyReplaceL ("#" ++ ip.2).toList (args.getD ip.1 "").toList acc
      else acc) l

/-- The output-indentation loop of `_call_function`.  In the source,
`outputs` *is* `self.output_lines` (the call to `execute` rebinds the
field and returns it), so the `for out in outputs` loop iterates the
very list it appends to; this is modelled by indexing into the growing
buffer.  `none` means the fuel ran out — for buffers containing any
line that does not start with `[函]`, that happens at every fuel. -/
def indentLoop : ℕ → List String → ℕ → Option (List String)
  | 0, _, _ => none
  | fuel + 1, buf, i =>
      if h : i < buf.length then
        let out := buf.get ⟨i, h⟩
        if strStartsWith out "[函]" then indentLoop fuel buf (i + 1)
        else indentLoop fuel (buf ++ ["  " ++ out]) (i + 1)
      else some buf

mutual

/-- Model of `execute(line)`: resets the output buffer, strips, dispatches, and
converts any raised exception into a single `[!]` diagnostic appended
to the buffer as mutated so far.  `none` means the step budget (fuel)
ran out; the fuel is decremented on every transition, so a Python
execution corresponds to any sufficiently large fuel, and a diverging
one to `none` at every fuel. -/
def execute : ℕ → St → String → Option St
  | 0, _, _ => none
  | fuel + 1, s, line =>
      let l := pyStripL line.toList
      let s := { s with outBuf := [] }
      if l.isEmpty then some s
      else
        match executeLine fuel s l with
        | none => none
        | some (.ok s') => some s'
        | some (.err s' msg) => some (pushOut s' ("[!] " ++ msg))

/-- Model of `_execute_line`: the statement classifier, in source order. -/
def executeLine : ℕ → St → List Char → Option HRes
  | 0, _, _ => none
  | fuel + 1, s, l =>
      if s.in_function && !(['¢', '.'].isPrefixOf l) then
        some (.ok { s with current_function_lines := s.current_function_lines ++ [String.mk l] })
      else if ['¢', ','].isPrefixOf l then some (handleOutput s l)
      else if ['¢'].isPrefixOf l && !(['¢', '.'].isPrefixOf l) then some (handleComment s l)
      else if ['¢', '.'].isPrefixOf l && !(pyContains l "¢.End") then
        (if lastIs l ')' then some (startFunctionDef s l) else some (.ok s))
      else if l = "¢.End".toList then some (endFunctionDef s)
      else if isCallLine l && l.contains '(' then
        (match callFunction fuel s l with
         | none => none
         | some s' => some (.ok s'))
      else if "return".toList.isPrefixOf l then some (handleReturn s l)
      else if ['('].isPrefixOf l then some (definePool s l)
      else if ['#'].isPrefixOf l && l.contains '=' && !(['#', '¢'].isPrefixOf l) then
        some (assignVariable s l)
      else if ['<'].isPrefixOf l then some (executeTarget s l)
      else if "&A(".toList.isPrefixOf l then some (handleMath s l)
      else if ['?'].isPrefixOf l then some (.err s condAttrMsg)
      else if l = "/state".toList then some (.ok (pushOut s (getState s)))
      else if l = "/reset".toList then some (.ok (pushOut (resetSt s) "[✓] 已重置"))
      else if l = "exit".toList || l = "quit".toList then some (.ok (pushOut s "[bye]"))
      else some (.ok (pushOut s ("[?] 未知: " ++ String.mk (l.take 40))))

/-- Model of `_call_function` (the line is known to match the call shape from the
classifier; a failed header match returns silently). -/
def callFunction : ℕ → St → List Char → Option St
  | 0, _, _ => none
  | fuel + 1, s, l =>
      match callMatch l with
      | none => some s
      | some (fname, argsGroup) =>
          let argsStr := pyStrip argsGroup
          let args :=
            if argsStr.isEmpty then []
            else (pySplit ',' argsStr.toList).map (fun a => pyStrip (String.mk a))
          match alookup s.functions fname with
          | none => some (pushOut s ("[!] 函数未定义: " ++ fname))
          | some func =>
              let s := pushOut s ("[调] ¢." ++ fname ++ "(" ++ argsStr ++ ")")
              runBody fuel func.params args func.body s

/-- The body loop of `_call_function`: strip, substitute parameters,
re-dispatch through `execute`, then run the (aliased) indentation loop
on the live output buffer. -/
def runBody : ℕ → List String → List String → List String → St → Option St
  | 0, _, _, _, _ => none
  | _ + 1, _, _, [], s => some s
  | fuel + 1, params, args, b :: rest, s =>
      let b' := pyStrip b
      if b'.isEmpty then runBody fuel params args rest s
      else
        let sub := substParams params args b'.toList
        match execute fuel s (String.mk sub) with
        | none => none
        | some s' =>
            match indentLoop fuel s'.outBuf 0 with
            | none => none
            | some buf => runBody fuel params args rest { s' with outBuf := buf }

end

/-- The inner `while` of `run_script`: collect stripped lines into the
pending body until the terminator, returning the lines that follow it. -/
def collectBody : St → List String → St × List String
  | s, [] => (s, [])
  | s, l :: rest =>
      let fl := pyStrip l
      if fl = "¢.End" then ((endFunctionDef s).state, rest)
      else collectBody { s with current_function_lines := s.current_function_lines ++ [fl] } rest

theorem collectBody_snd_le (s : St) (ls : List String) :
    (collectBody s ls).2.length ≤ ls.length := by
  induction ls generalizing s with
  | nil => simp [collectBody]
  | cons l rest ih =>
      simp only [collectBody]
      by_cases h : pyStrip l = "¢.End"
      · simp [h]
      · simp only [h, if_false]
        have := ih { s with current_function_lines := s.current_function_lines ++ [pyStrip l] }
        simp only [List.length_cons]
        omega

/-- The main loop of `run_script`, structurally recursive on a line
budget that starts at the number of lines (each step consumes at least
one line, so the budget is never exhausted on the wrapper's inputs).
The `¢.`-branch calls `_start_function_def` directly, outside any
`try`, so its `ValueError` escapes to the caller (`Except.error`);
every other line goes through `execute`, whose outputs are accumulated
(the printing of `verbose`). -/
def runScriptLoop (fuel : ℕ) :
    ℕ → St → List String → List String → Option (Except String (St × List String))
  | _, s, [], acc => some (.ok (s, acc))
  | 0, _, _ :: _, _ => none
  | lf + 1, s, line₀ :: rest, acc =>
      let line := pyStrip line₀
      if line.isEmpty then runScriptLoop fuel lf s rest acc
      else if strStartsWith line "¢." && !s.in_function then
        match startFunctionDef s line.toList with
        | .err _ msg => some (.error msg)
        | .ok s' =>
            let p := collectBody s' rest
            runScriptLoop fuel lf p.1 p.2 acc
      else
        match execute fuel s line with
        | none => none
        | some s' => runScriptLoop fuel lf s' rest (acc ++ s'.outBuf)

/-- Model of `run_script(code)`. -/
def runScript (fuel : ℕ) (s : St) (code : String) :
    Option (Except String (St × List String)) :=
  let lines := (pySplit '\n' (pyStripL code.toList)).map String.mk
  runScriptLoop fuel lines.length s lines []

/-- Fold `execute` over a list of top-level statements (the REPL view of
a session). -/
def runLines (fuel : ℕ) : St → List String → Option St
  | s, [] => some s
  | s, l :: rest =>
      match execute fuel s l with
      | none => none
      | some s' => runLines fuel s' rest

/-! ### Helper lemmas -/

theorem nextRand_fields (s : St) :
    (nextRand s).2.total_spent = s.total_spent ∧
    (nextRand s).2.pity_counter = s.pity_counter := by
  unfold nextRand
  cases s.randStream <;> simp

theorem pyChoice_inl_fields {s : St} {items : List String} {x : String} {s' : St}
    (h : pyChoice s items = .inl (x, s')) :
    s'.total_spent = s.total_spent ∧ s'.pity_counter = s.pity_counter := by
  cases items with
  | nil => simp [pyChoice] at h
  | cons a as =>
      cases hc : s.choiceStream with
      | nil =>
          simp only [pyChoice, hc, Sum.inl.injEq, Prod.mk.injEq] at h
          obtain ⟨-, h2⟩ := h
          subst h2
          exact ⟨rfl, rfl⟩
      | cons i rest =>
          simp only [pyChoice, hc, Sum.inl.injEq, Prod.mk.injEq] at h
          obtain ⟨-, h2⟩ := h
          subst h2
          exact ⟨rfl, rfl⟩

/-- Projections through `pushOut` and the optional trace line. -/
theorem pushOut_spent (s : St) (x : String) : (pushOut s x).total_spent = s.total_spent := rfl

theorem pushOut_pity (s : St) (x : String) : (pushOut s x).pity_counter = s.pity_counter := rfl

/-- Behaviour of the draw loop on each of its four outcomes: the two
terminal acquisitions reset the pity counter and add their exact cost;
a non-target `break` strictly increases the counter and spends nothing;
a raised exception spends nothing. -/
theorem drawLoop_spec (t : String) (p : Pool) (mp : ℕ) :
    ∀ rem draw s,
      (∀ k s', drawLoop t p mp draw rem s = .hit k s' →
        s'.pity_counter = 0 ∧ s'.total_spent = s.total_spent + 160 * (k : ℚ)) ∧
      (∀ s', drawLoop t p mp draw rem s = .exhausted s' →
        s'.pity_counter = 0 ∧ s'.total_spent = s.total_spent + 160 * (mp : ℚ)) ∧
      (∀ s', drawLoop t p mp draw rem s = .broke s' →
        s.pity_counter + 1 ≤ s'.pity_counter ∧ s'.total_spent = s.total_spent) ∧
      (∀ s' m, drawLoop t p mp draw rem s = .failed s' m →
        s'.total_spent = s.total_spent) := by
  intro rem
  induction rem with
  | zero =>
      intro draw s
      refine ⟨fun k s' h => ?_, fun s' h => ?_, fun s' h => ?_, fun s' m h => ?_⟩
      · simp [drawLoop] at h
      · simp only [drawLoop] at h
        injection h with h2
        subst h2
        refine ⟨rfl, ?_⟩
        simp only [pushOut_spent]
        push_cast
        ring
      · simp [drawLoop] at h
      · simp [drawLoop] at h
  | succ rem ih =>
      intro draw s
      have hnr := nextRand_fields { s with pity_counter := s.pity_counter + 1 }
      refine ⟨fun k s' h => ?_, fun s' h => ?_, fun s' h => ?_, fun s' m h => ?_⟩
      · -- hit
        simp only [drawLoop] at h
        split at h
        · split at h
          · simp at h
          · rename_i drawn s₂ hch
            have hcf := pyChoice_inl_fields hch
            split at h
            · injection h with h1 h2
              subst h1
              subst h2
              refine ⟨rfl, ?_⟩
              simp only [pushOut_spent, apply_ite St.total_spent, ite_self]
              simp only [hcf.1, hnr.1]
              push_cast
              ring
            · simp at h
        · have hc := (ih (draw + 1) _).1 k s' h
          exact ⟨hc.1, by rw [hc.2, hnr.1]⟩
      · -- exhausted
        simp only [drawLoop] at h
        split at h
        · split at h
          · simp at h
          · split at h
            · simp at h
            · simp at h
        · have hc := (ih (draw + 1) _).2.1 s' h
          exact ⟨hc.1, by rw [hc.2, hnr.1]⟩
      · -- broke
        simp only [drawLoop] at h
        split at h
        · split at h
          · simp at h
          · rename_i drawn s₂ hch
            have hcf := pyChoice_inl_fields hch
            split at h
            · simp at h
            · injection h with h2
              subst h2
              refine ⟨?_, ?_⟩
              · simp [apply_ite St.pity_counter, pushOut_pity, hcf.2, hnr.2]
              · simp [apply_ite St.total_spent, pushOut_spent, hcf.1, hnr.1]
        · have hc := (ih (draw + 1) _).2.2.1 s' h
          refine ⟨?_, by rw [hc.2, hnr.1]⟩
          have h1 := hc.1
          simp [hnr.2] at h1
          omega
      · -- failed
        simp only [drawLoop] at h
        split at h
        · split at h
          · injection h with h2 h3
            subst h2
            rw [hnr.1]
          · split at h
            · simp at h
            · simp at h
        · exact (ih (draw + 1) _).2.2.2 s' m h |>.trans hnr.1

theorem strStartsWith_two_space (x : String) :
    strStartsWith ("  " ++ x) "[函]" = false := by
  cases x
  rfl

theorem get_append_len {α : Type} (l : List α) (x : α)
    (h : l.length < (l ++ [x]).length) :
    (l ++ [x]).get ⟨l.length, h⟩ = x := by
  induction l with
  | nil => rfl
  | cons a as ih => exact ih (by simp)

/-- The indentation loop of `_call_function` never terminates once the
buffer holds any line (at or beyond the cursor) that does not carry the
`[函]` filter prefix: each such line is re-appended with two spaces in
front, producing yet another unfiltered line. -/
theorem indentLoop_none (fuel : ℕ) :
    ∀ buf i, (∃ j, i ≤ j ∧ ∃ h : j < buf.length,
      strStartsWith (buf.get ⟨j, h⟩) "[函]" = false) →
    indentLoop fuel buf i = none := by
  induction fuel with
  | zero => intro buf i _; rfl
  | succ fuel ih =>
      intro buf i hj
      obtain ⟨j, hij, hjl, hns⟩ := hj
      have hi : i < buf.length := Nat.lt_of_le_of_lt hij hjl
      simp only [indentLoop]
      rw [dif_pos hi]
      split
      · rename_i hst
        apply ih
        have hne : i ≠ j := by
          intro he
          subst he
          have hsame : buf.get ⟨i, hjl⟩ = buf.get ⟨i, hi⟩ := rfl
          rw [hsame, hst] at hns
          exact absurd hns (by simp)
        exact ⟨j, by omega, hjl, hns⟩
      · apply ih
        have hlen : buf.length < (buf ++ ["  " ++ buf.get ⟨i, hi⟩]).length := by simp
        refine ⟨buf.length, by omega, hlen, ?_⟩
        rw [get_append_len]
        exact strStartsWith_two_space _

theorem occursIn_of_append (pat pre suf : List Char)
    (hpat : pat.isPrefixOf suf = true) : occursIn pat (pre ++ suf) = true := by
  induction pre with
  | nil =>
      cases suf with
      | nil =>
          cases pat with
          | nil => rfl
          | cons p ps => simp [List.isPrefixOf] at hpat
      | cons c cs => simp [occursIn, hpat]
  | cons p pre ih => simp [occursIn, ih]

/-- If a value string holds no digit and no `.` immediately followed by
`/`, the probability-token search of `_assign_variable` finds nothing. -/
theorem findProbTok_none :
    ∀ l : List Char, (∀ c ∈ l, c.isDigit = false) →
    occursIn ['.', '/'] l = false → findProbTok l = none := by
  intro l
  induction l with
  | nil => intro _ _; rfl
  | cons c rest ih =>
      intro hd hinf
      have hinf' : (['.', '/'].isPrefixOf (c :: rest)) = false ∧ occursIn ['.', '/'] rest = false := by
        have h := hinf
        simp only [occursIn, Bool.or_eq_false_iff] at h
        exact h
      obtain ⟨hpre, hrest⟩ := hinf'
      have hdrest : ∀ x ∈ rest, x.isDigit = false := fun x hx => hd x (List.mem_cons_of_mem _ hx)
      simp only [findProbTok]
      by_cases hc : isProbChar c = true
      · rw [if_pos hc]
        have hcd : c.isDigit = false := hd c (List.mem_cons_self _ _)
        have hcdot : c = '.' := by
          unfold isProbChar at hc
          rw [hcd] at hc
          simpa using hc
        subst hcdot
        cases hdw : rest.dropWhile isProbChar with
        | nil => exact ih hdrest hrest
        | cons d ds =>
            by_cases hds : d = '/'
            · exfalso
              subst hds
              -- the maximal [\d.] run before the slash is all dots
              have hsplit : rest.takeWhile isProbChar ++ '/' :: ds = rest := by
                rw [← hdw]
                exact List.takeWhile_append_dropWhile isProbChar rest
              have hrun : ∀ x ∈ rest.takeWhile isProbChar, x = '.' := by
                intro x hx
                have hpx : isProbChar x = true := List.mem_takeWhile_imp hx
                have hxd : x.isDigit = false := by
                  apply hdrest
                  exact (List.takeWhile_sublist _).mem hx
                unfold isProbChar at hpx
                rw [hxd] at hpx
                simpa using hpx
              cases hrt : rest.takeWhile isProbChar with
              | nil =>
                  -- the dot heading the value is immediately before the slash
                  rw [hrt] at hsplit
                  simp only [List.nil_append] at hsplit
                  rw [← hsplit] at hpre
                  have ht : ['.', '/'].isPrefixOf ('.' :: '/' :: ds) = true := by
                    simp [List.isPrefixOf]
                  rw [ht] at hpre
                  exact Bool.noConfusion hpre
              | cons r rs =>
                  -- the run's final dot is immediately before the slash
                  have hlast : (r :: rs).getLast (by simp) = '.' := by
                    apply hrun
                    rw [hrt]
                    exact List.getLast_mem _
                  have hdecomp : (r :: rs).dropLast ++ ['.'] = r :: rs := by
                    rw [← hlast]
                    exact List.dropLast_append_getLast _
                  have : occursIn ['.', '/'] rest = true := by
                    rw [← hsplit, hrt, ← hdecomp]
                    rw [List.append_assoc]
                    exact occursIn_of_append _ _ _ (by simp [List.isPrefixOf])
                  rw [this] at hrest
                  exact absurd hrest (by simp)
            · split
              · rename_i tail heq
                injection heq with h1 _
                exact absurd h1 hds
              · exact ih hdrest hrest
      · rw [if_neg hc]
        exact ih hdrest hrest

theorem handleComment_spent (s : St) (l : List Char) :
    (handleComment s l).state.total_spent = s.total_spent := by
  unfold handleComment
  dsimp only
  split <;> rfl

theorem startFunctionDef_spent (s : St) (l : List Char) :
    (startFunctionDef s l).state.total_spent = s.total_spent := by
  unfold startFunctionDef
  dsimp only
  split <;> rfl

theorem handleReturn_spent (s : St) (l : List Char) :
    (handleReturn s l).state.total_spent = s.total_spent := by
  unfold handleReturn
  split <;> rfl

theorem definePool_spent (s : St) (l : List Char) :
    (definePool s l).state.total_spent = s.total_spent := by
  unfold definePool
  dsimp only
  repeat' split
  all_goals rfl

theorem assignVariable_spent (s : St) (l : List Char) :
    (assignVariable s l).state.total_spent = s.total_spent := by
  unfold assignVariable
  dsimp only
  repeat' split
  all_goals rfl

theorem handleMath_spent (s : St) (l : List Char) :
    (handleMath s l).state.total_spent = s.total_spent := by
  unfold handleMath
  cases findMath l with
  | none => rfl
  | some expr =>
      show (match pyEval (mathSubst s expr) with
        | some r => HRes.ok (pushOut s ("[算] " ++ expr ++ " = " ++ formatFixed2 r))
        | none =>
            HRes.ok (pushOut s ("[算] 错误: " ++ String.mk (mathSubst s expr)))).state.total_spent
        = s.total_spent
      cases pyEval (mathSubst s expr) <;> rfl

theorem executeTarget_spent_mono (s : St) (l : List Char) :
    s.total_spent ≤ (executeTarget s l).state.total_spent := by
  unfold executeTarget
  dsimp only
  split
  · exact le_refl _
  · split
    · exact le_refl _
    · split
      · exact le_refl _
      · split
        · rename_i k s' hdl
          have hc := (drawLoop_spec _ _ _ _ _ _).1 k s' hdl
          rw [HRes.state, hc.2, pushOut_spent]
          have : (0 : ℚ) ≤ 160 * (k : ℚ) := by positivity
          linarith
        · rename_i s' hdl
          have hc := (drawLoop_spec _ _ _ _ _ _).2.2.1 s' hdl
          rw [HRes.state, hc.2, pushOut_spent]
        · rename_i s' hdl
          have hc := (drawLoop_spec _ _ _ _ _ _).2.1 s' hdl
          rw [HRes.state, hc.2, pushOut_spent]
          have : (0 : ℚ) ≤ 160 * (((findStar l).getD 90 : ℕ) : ℚ) := by positivity
          linarith
        · rename_i s' m hdl
          have hc := (drawLoop_spec _ _ _ _ _ _).2.2.2 s' m hdl
          rw [HRes.state, hc, pushOut_spent]

theorem handleOutput_spent (s : St) (l : List Char) :
    (handleOutput s l).state.total_spent = s.total_spent := rfl

theorem endFunctionDef_spent (s : St) :
    (endFunctionDef s).state.total_spent = s.total_spent := rfl

section
set_option maxHeartbeats 1000000

-- Every classifier branch except function calls and `/reset` leaves
-- `total_spent` unchanged or (for a draw) adds a non-negative cost.
theorem executeLine_spent_mono (fuel : ℕ) (s : St) (l : List Char) (res : HRes)
    (hres : executeLine fuel s l = some res)
    (hcall : isCallLine l = false)
    (hreset : l ≠ "/reset".toList) :
    s.total_spent ≤ res.state.total_spent := by
  cases fuel with
  | zero => exact absurd hres (by simp [executeLine])
  | succ fuel =>
  simp only [executeLine] at hres
  rw [hcall] at hres
  simp only [Bool.false_and, Bool.false_eq_true, if_false, eq_false hreset] at hres
  by_cases c1 : (s.in_function && !(['¢', '.'].isPrefixOf l)) = true
  · rw [if_pos c1] at hres
    injection hres with hres
    subst hres
    exact le_refl _
  · rw [if_neg c1] at hres
    by_cases c2 : (['¢', ','].isPrefixOf l) = true
    · rw [if_pos c2] at hres
      injection hres with hres
      subst hres
      exact le_of_eq (handleOutput_spent s l).symm
    · rw [if_neg c2] at hres
      by_cases c3 : (['¢'].isPrefixOf l && !(['¢', '.'].isPrefixOf l)) = true
      · rw [if_pos c3] at hres
        injection hres with hres
        subst hres
        exact le_of_eq (handleComment_spent s l).symm
      · rw [if_neg c3] at hres
        by_cases c4 : (['¢', '.'].isPrefixOf l && !(pyContains l "¢.End")) = true
        · rw [if_pos c4] at hres
          by_cases c4a : lastIs l ')' = true
          · rw [if_pos c4a] at hres
            injection hres with hres
            subst hres
            exact le_of_eq (startFunctionDef_spent s l).symm
          · rw [if_neg c4a] at hres
            injection hres with hres
            subst hres
            exact le_refl _
        · rw [if_neg c4] at hres
          by_cases c5 : l = "¢.End".toList
          · rw [if_pos c5] at hres
            injection hres with hres
            subst hres
            exact le_of_eq (endFunctionDef_spent s).symm
          · rw [if_neg c5] at hres
            by_cases c6 : "return".toList.isPrefixOf l = true
            · rw [if_pos c6] at hres
              injection hres with hres
              subst hres
              exact le_of_eq (handleReturn_spent s l).symm
            · rw [if_neg c6] at hres
              by_cases c7 : (['('].isPrefixOf l) = true
              · rw [if_pos c7] at hres
                injection hres with hres
                subst hres
                exact le_of_eq (definePool_spent s l).symm
              · rw [if_neg c7] at hres
                by_cases c8 : (['#'].isPrefixOf l && l.contains '=' && !(['#', '¢'].isPrefixOf l)) = true
                · rw [if_pos c8] at hres
                  injection hres with hres
                  subst hres
                  exact le_of_eq (assignVariable_spent s l).symm
                · rw [if_neg c8] at hres
                  by_cases c9 : (['<'].isPrefixOf l) = true
                  · rw [if_pos c9] at hres
                    injection hres with hres
                    subst hres
                    exact executeTarget_spent_mono s l
                  · rw [if_neg c9] at hres
                    by_cases c10 : ("&A(".toList.isPrefixOf l) = true
                    · rw [if_pos c10] at hres
                      injection hres with hres
                      subst hres
                      exact le_of_eq (handleMath_spent s l).symm
                    · rw [if_neg c10] at hres
                      by_cases c11 : (['?'].isPrefixOf l) = true
                      · rw [if_pos c11] at hres
                        injection hres with hres
                        subst hres
                        exact le_refl _
                      · rw [if_neg c11] at hres
                        by_cases c12 : l = "/state".toList
                        · rw [if_pos c12] at hres
                          injection hres with hres
                          subst hres
                          exact le_refl _
                        · rw [if_neg c12] at hres
                          by_cases c13 : (l = "exit".toList || l = "quit".toList)
                          · rw [if_pos c13] at hres
                            injection hres with hres
                            subst hres
                            exact le_refl _
                          · rw [if_neg c13] at hres
                            injection hres with hres
                            subst hres
                            exact le_refl _

end

/-! ### Concrete-evaluation support

The interpreter's definitions are registered with `simp` so that closed
executions can be normalised by rewriting (`simp +decide`); the small
rational/string residue left behind is settled by kernel reduction. -/

attribute [simp] execute executeLine callFunction runBody indentLoop handleOutput handleComment
  handleReturn startFunctionDef endFunctionDef definePool assignVariable executeTarget drawLoop
  currentProb handleMath mathSubst getState replaceVar renderPlain subHash subHashAux pushOut
  resetSt initSt nextRand pyChoice alookup ainsert findParenProb findProbTok findItems findDollar
  findHash findStar findTimes callMatch isCallLine funcDefMatch assignMatch returnMatch findMath
  lastGroup pyStrip pyStripL strStartsWith lastIs pyContains occursIn isWordChar isPySpace
  isProbChar digitsToNat pyFloat pyFloatFull floatErrMsg formatPyFloat formatSpent fracDigits
  pyStrList pyDictStr displayVal pyStrVal formatFixed2 pySplit pyReplaceL pyReplaceGo substParams
  collectBody runScriptLoop runScript runLines HRes.state

/-! ### Claims -/

/-- C2: the claim says `run_script` converts every per-line failure into
a diagnostic output line and lets no exception escape.  In fact the
function-definition branch of `run_script` calls `_start_function_def`
outside `execute`'s `try`/`except`, so a bare `¢.End` at top level, or
an unclosed header `¢.f(`, raises `ValueError("函数定义: ¢.函数名(参数)")`
straight to `run_script`'s caller, at every fuel. -/
theorem C2_claim :
    ∀ fuel : ℕ,
      runScript fuel initSt "¢.End" = some (.error "函数定义: ¢.函数名(参数)") ∧
      runScript fuel initSt "¢.f(" = some (.error "函数定义: ¢.函数名(参数)") :=
  fun _ => ⟨rfl, rfl⟩

/-- C3: the claim says calling a defined function returns the call's
echo line followed by the body's output lines indented.  Evaluating the
code at a function `f` whose body is the bare comment marker `¢` (which
produces no output of its own) returns NO output lines at all: the
nested `execute` rebinds `output_lines`, so the echo line appended by
`_call_function` is lost. -/
theorem C3_claim :
    (execute 6 { initSt with functions := [("f", ⟨"f", [], ["¢"]⟩)] } "f()").map St.outBuf
      = some [] := by
  simp +decide
  all_goals with_unfolding_all decide

/-- C5: the effective per-draw probability equals the base probability
while the (incremented) pity counter is at most 70, and equals
`min 1 (base + 0.02 * d)` at counter `70 + d` for `d > 0`. -/
theorem C5_claim (base : ℚ) (pity d : ℕ) :
    (pity ≤ 70 → currentProb base pity = base) ∧
    (0 < d → currentProb base (70 + d) = min 1 (base + 2 / 100 * (d : ℚ))) := by
  constructor
  · intro h
    unfold currentProb
    rw [if_neg (by omega)]
  · intro h
    unfold currentProb
    rw [if_pos (by omega)]
    congr 1
    rw [Nat.add_sub_cancel_left]
    ring

/-- C5 witness: at base probability `3/500`, the effective probability
is the base at pity 5, and `min 1 (3/500 + 0.02 * 10)` at pity 80. -/
theorem C5_witness :
    currentProb (mkRat 3 500) 5 = mkRat 3 500 ∧
    currentProb (mkRat 3 500) (70 + 10) = min 1 (mkRat 3 500 + 2 / 100 * ((10 : ℕ) : ℚ)) :=
  ⟨(C5_claim (mkRat 3 500) 5 10).1 (by omega),
   (C5_claim (mkRat 3 500) 5 10).2 (by omega)⟩

/-- Session state with a fixed random stream: a drop on the first draw
attempt, choosing item index 0. -/
def csDrop : St := { initSt with randStream := [0], choiceStream := [0] }

/-- Model of `csDrop` after defining the two-item pool `(50/:$A,$B)#P`. -/
def csPoolAB : St := { initSt with pools := [("P", ⟨"P", mkRat 1 2, ["A", "B"]⟩)], outBuf := ["[池] #P | 50.0% | $A,$B"], randStream := [0], choiceStream := [0] }

/-- Model of `csPoolAB` after the draw `<$B,#P>`: item `A` dropped (not the
target `B`), the loop broke, and the pity counter was left at 1. -/
def csAfterDraw : St := { initSt with pools := [("P", ⟨"P", mkRat 1 2, ["A", "B"]⟩)], inventory := ["A"], pity_counter := 1, outBuf := ["[抽] $B | #P | 1连 | 保底90", "     第1抽: $A "] }

/-- C1 counterexample: after defining pool `#P` (50%, items `$A,$B`)
and running the draw `<$B,#P>` with random stream `[0]` (a drop on the
first attempt) and choice stream `[0]` (item `A` is drawn), the
sequence terminates by a non-target drop and `pity_counter` is `1`,
not `0`. -/
theorem C1_counterexample :
    (runLines 10 csDrop ["(50/:$A,$B)#P", "<$B,#P>"]).map St.pity_counter = some 1 := by
  have h1 : execute 10 csDrop "(50/:$A,$B)#P" = some csPoolAB := by
    simp +decide [csDrop, csPoolAB]
    all_goals with_unfolding_all decide
  have h2 : execute 10 csPoolAB "<$B,#P>" = some csAfterDraw := by
    simp +decide [csPoolAB, csAfterDraw]
    all_goals with_unfolding_all decide
  simp only [runLines, h1, h2]
  rfl

/-- C1 (amended): `pity_counter` is reset to exactly 0 when a draw
sequence terminates by a target hit or by cap exhaustion; when the
sequence terminates because a non-target item dropped, the counter is
not reset — it retains its strictly increased value. -/
theorem C1_claim (t : String) (p : Pool) (mp draw rem : ℕ) (s : St) :
    (∀ k s', drawLoop t p mp draw rem s = .hit k s' → s'.pity_counter = 0) ∧
    (∀ s', drawLoop t p mp draw rem s = .exhausted s' → s'.pity_counter = 0) ∧
    (∀ s', drawLoop t p mp draw rem s = .broke s' → s.pity_counter + 1 ≤ s'.pity_counter) :=
  ⟨fun k s' h => ((drawLoop_spec t p mp rem draw s).1 k s' h).1,
   fun s' h => ((drawLoop_spec t p mp rem draw s).2.1 s' h).1,
   fun s' h => ((drawLoop_spec t p mp rem draw s).2.2.1 s' h).1⟩

/-- C1 witness: a concrete draw on a single-item pool hits the target
at the first attempt, and the resulting state carries `pity_counter`
0. -/
theorem C1_witness :
    (St.mk [] [] [] ["A"] 0 160 []
      ["     第1抽: $A ", "[✓] 出货! $A | 1抽 ¥160"] false [] "" [] [] []).pity_counter = 0 :=
  (C1_claim "A" ⟨"P", mkRat 1 2, ["A"]⟩ 90 1 90 csDrop).1 1 _
    (by simp +decide [csDrop]
        all_goals with_unfolding_all decide)

/-- Model of `csDrop` after defining the one-item pool `(50/:$A)#P`. -/
def csPoolA : St := { initSt with pools := [("P", ⟨"P", mkRat 1 2, ["A"]⟩)], outBuf := ["[池] #P | 50.0% | $A"], randStream := [0], choiceStream := [0] }

/-- Model of `csPoolA` after the draw `<$A,#P>`: the target dropped on the first
attempt, costing 160. -/
def csAfterHit : St := { initSt with pools := [("P", ⟨"P", mkRat 1 2, ["A"]⟩)], inventory := ["A"], total_spent := 160, outBuf := ["[抽] $A | #P | 1连 | 保底90", "     第1抽: $A ", "[✓] 出货! $A | 1抽 ¥160"] }

/-- C6 counterexample: after a successful draw `total_spent` is 160,
but executing one further statement, `/reset`, sets it back to 0 — so
`total_spent` does decrease across a sequence of executed statements,
and a statement other than a draw changes it. -/
theorem C6_counterexample :
    (runLines 10 csDrop ["(50/:$A)#P", "<$A,#P>"]).map St.total_spent = some 160 ∧
    (runLines 10 csDrop ["(50/:$A)#P", "<$A,#P>", "/reset"]).map St.total_spent = some 0 := by
  have h1 : execute 10 csDrop "(50/:$A)#P" = some csPoolA := by
    simp +decide [csDrop, csPoolA]
    all_goals with_unfolding_all decide
  have h2 : execute 10 csPoolA "<$A,#P>" = some csAfterHit := by
    simp +decide [csPoolA, csAfterHit]
    all_goals with_unfolding_all decide
  have h3 : execute 10 csAfterHit "/reset" = some { initSt with outBuf := ["[✓] 已重置"] } := by
    simp +decide [csAfterHit]
    all_goals with_unfolding_all decide
  refine ⟨?_, ?_⟩ <;>
    · simp only [runLines, h1, h2, h3]
      rfl

/-- C6 (amended): `total_spent` never decreases across executed
statements other than `/reset`, which sets it to 0 (a function call
executes its body lines as statements and can reach `/reset` that way);
a draw hitting the target at attempt `k` adds exactly `160 * k`, cap
exhaustion with cap `c` adds exactly `160 * c`, and a draw ending in a
non-target drop or an exception adds nothing. -/
theorem C6_claim :
    (∀ t p mp draw rem s k s', drawLoop t p mp draw rem s = .hit k s' →
        s'.total_spent = s.total_spent + 160 * (k : ℚ)) ∧
    (∀ t p mp draw rem s s', drawLoop t p mp draw rem s = .exhausted s' →
        s'.total_spent = s.total_spent + 160 * (mp : ℚ)) ∧
    (∀ t p mp draw rem s s', drawLoop t p mp draw rem s = .broke s' →
        s'.total_spent = s.total_spent) ∧
    (∀ t p mp draw rem s s' m, drawLoop t p mp draw rem s = .failed s' m →
        s'.total_spent = s.total_spent) ∧
    (∀ fuel s l res, executeLine fuel s l = some res → isCallLine l = false →
        l ≠ "/reset".toList → s.total_spent ≤ res.state.total_spent) :=
  ⟨fun t p mp draw rem s k s' h => ((drawLoop_spec t p mp rem draw s).1 k s' h).2,
   fun t p mp draw rem s s' h => ((drawLoop_spec t p mp rem draw s).2.1 s' h).2,
   fun t p mp draw rem s s' h => ((drawLoop_spec t p mp rem draw s).2.2.1 s' h).2,
   fun t p mp draw rem s s' m h => (drawLoop_spec t p mp rem draw s).2.2.2 s' m h,
   executeLine_spent_mono⟩

/-- C6 witness: the concrete first-attempt hit adds exactly `160 * 1`
to a session that had spent 0. -/
theorem C6_witness :
    (St.mk [] [] [] ["A"] 0 160 []
      ["     第1抽: $A ", "[✓] 出货! $A | 1抽 ¥160"] false [] "" [] [] []).total_spent
      = csDrop.total_spent + 160 * ((1 : ℕ) : ℚ) :=
  C6_claim.1 "A" ⟨"P", mkRat 1 2, ["A"]⟩ 90 1 90 csDrop 1 _
    (by simp +decide [csDrop]
        all_goals with_unfolding_all decide)

/-- C7 counterexample: the line `(x0.6/:$A)#P` contains the
floating-point literal `0.6` immediately followed by `/`, a `$`-item
and a `#`-name, yet the statement produces a malformed-pool diagnostic
and stores no pool: the regex `\(([\d.]+)/` also requires an opening
parenthesis immediately before the literal. -/
theorem C7_counterexample :
    (execute 5 initSt "(x0.6/:$A)#P").map (fun s => (s.pools, s.outBuf))
      = some ([], ["[!] 池子: (0.6/:$雷电)#UP"]) := by
  simp +decide
  all_goals with_unfolding_all decide

/-- C7 (amended): for every pool-definition line, the stored pool's
`total_probability` equals the first digit-or-dot run immediately
preceded by `(` and immediately followed by `/`, parsed as a float and
divided by 100, and its items are exactly the `$`-tokens in order with
duplicates; if that parenthesised literal is absent or unparseable, the
item list is empty, or no `#`-name is present, the statement raises a
diagnostic and stores no pool. -/
theorem C7_claim (s : St) (l : List Char) :
    (∀ tok q i rest nm, findParenProb l = some tok → pyFloat tok = some q →
        findItems l = i :: rest → findHash l = some nm →
        definePool s l = .ok (pushOut { s with pools := ainsert s.pools nm ⟨nm, q / 100, i :: rest⟩ }
          ("[池] #" ++ nm ++ " | " ++ formatPyFloat (q / 100 * 100) ++ "% | " ++
            String.intercalate "," ((i :: rest).map (fun x => "$" ++ x))))) ∧
    (findParenProb l = none → definePool s l = .err s "池子: (0.6/:$雷电)#UP") ∧
    (∀ tok, findParenProb l = some tok → pyFloat tok = none →
        definePool s l = .err s (floatErrMsg tok)) ∧
    (∀ tok q, findParenProb l = some tok → pyFloat tok = some q → findItems l = [] →
        definePool s l = .err s "池子需要物品") ∧
    (∀ tok q i rest, findParenProb l = some tok → pyFloat tok = some q →
        findItems l = i :: rest → findHash l = none →
        definePool s l = .err s "池子需要命名") := by
  refine ⟨?_, ?_, ?_, ?_, ?_⟩
  · intro tok q i rest nm h1 h2 h3 h4
    simp only [definePool, h1, h2, h3, h4, List.isEmpty_cons, Bool.false_eq_true, if_false]
  · intro h1
    simp only [definePool, h1]
  · intro tok h1 h2
    simp only [definePool, h1, h2]
  · intro tok q h1 h2 h3
    simp only [definePool, h1, h2, h3, List.isEmpty_nil, if_true]
  · intro tok q i rest h1 h2 h3 h4
    simp only [definePool, h1, h2, h3, h4, List.isEmpty_cons, Bool.false_eq_true, if_false]

/-- C7 witness: the well-formed pool line `(0.6/:$A,$B)#UP` stores pool
`UP` with probability `0.6 / 100` and items `["A", "B"]` in order. -/
theorem C7_witness :
    definePool initSt "(0.6/:$A,$B)#UP".toList
      = .ok (pushOut { initSt with pools := ainsert initSt.pools "UP" ⟨"UP", mkRat 3 5 / 100, ["A", "B"]⟩ }
          ("[池] #UP | " ++ formatPyFloat (mkRat 3 5 / 100 * 100) ++ "% | " ++
            String.intercalate "," (["A", "B"].map (fun x => "$" ++ x)))) :=
  (C7_claim initSt _).1 "0.6" (mkRat 3 5) "A" ["B"] "UP"
    (by with_unfolding_all decide) (by with_unfolding_all decide)
    (by with_unfolding_all decide) (by with_unfolding_all decide)

/-- C8: output rendering of `#name` tokens looks a name up first in the
plain-variable namespace (rendering floats below 1 as a percentage and
other values verbatim) and only then in the currency namespace (with
the `¥` prefix), so a name present in both namespaces always resolves
to the plain-variable value; a name in neither renders as the explicit
`[未定义:#name]` placeholder, and the output statement itself never
fails — it appends exactly one rendered line. -/
theorem C8_claim (s : St) (name : String) :
    (∀ v, alookup s.vars name = some v → replaceVar s name = renderPlain v) ∧
    (alookup s.vars name = none → ∀ c, alookup s.currency name = some c →
        replaceVar s name = "¥" ++ formatPyFloat c) ∧
    (alookup s.vars name = none → alookup s.currency name = none →
        replaceVar s name = "[未定义:#" ++ name ++ "]") ∧
    (∀ l, ∃ rendered, handleOutput s l = .ok (pushOut s rendered)) := by
  refine ⟨?_, ?_, ?_, fun l => ⟨_, rfl⟩⟩
  · intro v h1
    simp only [replaceVar, h1]
  · intro h1 c h2
    simp only [replaceVar, h1, h2]
  · intro h1 h2
    simp only [replaceVar, h1, h2]

/-- C8 witness: with `x` bound to the float `0.5` in the plain
namespace and to `999` in the currency namespace, the rendering is the
plain percentage `50.0%`, not the currency form. -/
theorem C8_witness :
    replaceVar { initSt with vars := [("x", .num (mkRat 1 2))], currency := [("x", 999)] } "x"
      = "50.0%" := by
  have h := (C8_claim { initSt with vars := [("x", .num (mkRat 1 2))], currency := [("x", 999)] }
      "x").1 (.num (mkRat 1 2)) (by with_unfolding_all decide)
  rw [h]
  with_unfolding_all decide

/-- C9 counterexample: the assignment `#x = ./` has a right-hand side
that ends with `/` and contains no digit, yet `execute` returns a
float-conversion diagnostic instead of an assignment-confirmation line:
the dot forms a `[\d.]+` run before the slash, and `float('.')`
raises. -/
theorem C9_counterexample :
    (execute 5 initSt "#x = ./").map (fun s => (s.outBuf, s.vars, s.currency))
      = some (["[!] could not convert string to float: \x27.\x27"], [], []) := by
  simp +decide
  all_goals with_unfolding_all decide

/-- C9 (amended): for every assignment line whose stripped right-hand
side ends with `/`, does not begin with the currency marker `¥`,
contains no digit, and has no `.` immediately followed by `/`, execute
stores nothing in either namespace, leaves all other state unchanged,
and still returns exactly one assignment-confirmation output line. -/
theorem C9_claim (s : St) (l : List Char) (name g2 : String)
    (h1 : assignMatch l = some (name, g2))
    (h2 : lastIs (pyStrip g2).toList '/' = true)
    (h3 : strStartsWith (pyStrip g2) "¥" = false)
    (h4 : ∀ c ∈ (pyStrip g2).toList, c.isDigit = false)
    (h5 : occursIn ['.', '/'] (pyStrip g2).toList = false) :
    assignVariable s l = .ok (pushOut s ("[变] #" ++ name ++ " = " ++ pyStrip g2)) := by
  have hft := findProbTok_none (pyStrip g2).toList h4 h5
  simp only [assignVariable, h1, h3, Bool.false_eq_true, if_false, h2, if_true, hft]

/-- C9 witness: `#x = abc/` stores nothing and still returns the
assignment-confirmation line. -/
theorem C9_witness :
    assignVariable initSt "#x = abc/".toList
      = .ok (pushOut initSt ("[变] #" ++ "x" ++ " = " ++ pyStrip "abc/")) :=
  C9_claim initSt "#x = abc/".toList "x" "abc/"
    (by with_unfolding_all decide) (by with_unfolding_all decide)
    (by with_unfolding_all decide) (by with_unfolding_all decide)
    (by with_unfolding_all decide)

/-- C10: a top-level line (not during body collection) that starts with
the function-definition marker `¢.`, does not contain the terminator
token `¢.End`, and does not end with `)`, produces no output lines and
leaves every state field unchanged — the malformed definition header is
silently ignored rather than diagnosed. -/
theorem C10_claim (fuel : ℕ) (s : St) (rest : List Char)
    (hin : s.in_function = false)
    (hstrip : pyStripL ('¢' :: '.' :: rest) = '¢' :: '.' :: rest)
    (hend : pyContains ('¢' :: '.' :: rest) "¢.End" = false)
    (hlast : lastIs ('¢' :: '.' :: rest) ')' = false) :
    execute (fuel + 2) s (String.mk ('¢' :: '.' :: rest)) = some { s with outBuf := [] } := by
  have hl : (String.mk ('¢' :: '.' :: rest)).toList = '¢' :: '.' :: rest := rfl
  have c2 : (['¢', ','].isPrefixOf ('¢' :: '.' :: rest)) = false := by
    with_unfolding_all rfl
  have c3' : (['¢', '.'].isPrefixOf ('¢' :: '.' :: rest)) = true := by
    cases rest <;> with_unfolding_all rfl
  have hEL : executeLine (fuel + 1) { s with outBuf := [] } ('¢' :: '.' :: rest)
      = some (.ok { s with outBuf := [] }) := by
    have c1 : ({ s with outBuf := ([] : List String) }.in_function
        && !(['¢', '.'].isPrefixOf ('¢' :: '.' :: rest))) = false := by
      simp only [hin]
      rfl
    have c3 : ((['¢'].isPrefixOf ('¢' :: '.' :: rest))
        && !(['¢', '.'].isPrefixOf ('¢' :: '.' :: rest))) = false := by
      rw [c3']
      simp
    have c4 : ((['¢', '.'].isPrefixOf ('¢' :: '.' :: rest))
        && !(pyContains ('¢' :: '.' :: rest) "¢.End")) = true := by
      rw [c3', hend]
      simp
    simp only [executeLine, c1, c2, c3, c4, hlast, Bool.false_eq_true, if_false, if_true]
  simp only [execute, hl, hstrip, hEL, List.isEmpty_cons, Bool.false_eq_true, if_false]

/-- C10 witness: the malformed header `¢.foo(` at the top level returns
no output and changes nothing. -/
theorem C10_witness :
    execute 2 initSt (String.mk ('¢' :: '.' :: "foo(".toList))
      = some { initSt with outBuf := [] } :=
  C10_claim 0 initSt "foo(".toList rfl (by with_unfolding_all decide)
    (by with_unfolding_all decide) (by with_unfolding_all decide)

/-- C4: the claim says every `execute` call terminates, with draw loops
bounded by the cap and call recursion bounded at depth 1.  In fact,
calling a function whose body produces any output line never
terminates: the indentation loop of `_call_function` iterates the very
list it appends to.  Evaluating the code at a function `f` with body
`¢,hi`, the call `f()` exhausts every fuel — the model returns `none`
at all depths. -/
theorem C4_claim :
    ∀ fuel : ℕ,
      execute fuel { initSt with functions := [("f", ⟨"f", [], ["¢,hi"]⟩)] } "f()" = none := by
  intro fuel
  match fuel with
  | 0 => rfl
  | 1 => rfl
  | 2 => rfl
  | 3 => rfl
  | 4 => rfl
  | 5 => rfl
  | m + 6 =>
      have hd : indentLoop (m + 2) ["[出] hi"] 0 = none :=
        indentLoop_none (m + 2) ["[出] hi"] 0
          ⟨0, le_refl 0, by simp, by with_unfolding_all decide⟩
      change (match (match (match indentLoop (m + 2) ["[出] hi"] 0 with
          | none => (none : Option St)
          | some buf =>
              some { St.mk [] [] [] [] 0 0 [("f", ⟨"f", [], ["¢,hi"]⟩)]
                       ["[出] hi"] false [] "" [] [] [] with outBuf := buf }) with
        | none => (none : Option HRes)
        | some s' => some (HRes.ok s')) with
        | none => (none : Option St)
        | some (HRes.ok s') => some s'
        | some (HRes.err s' msg) => some (pushOut s' ("[!] " ++ msg))) = none
      rw [hd]

end HPS
